import Mathlib

/-!
Verification of the drive-utils duplicate-remediation engine
(`deduper/dedup.py`) and of the photo-date script
(`photo-date-fixer/datefix.py`), as a shallow embedding.

File metadata values (ids, checksums, titles, links) are modelled as
`String`; byte counts as `Nat`; the user-visible behaviour of `main` as a
trace of events.
-/

set_option autoImplicit false

/-! ## Data model (`dedup.py`) -/

/-- One file entry as fetched by `fetch_all_metadata`: the fields requested
from the listing are `id`, `md5Checksum`, `title`, `alternateLink`,
`quotaBytesUsed` (the last parsed with `int(...)`, non-negative). -/
structure FileRecord where
  id : String
  md5Checksum : String
  title : String
  alternateLink : String
  quotaBytesUsed : Nat
deriving DecidableEq, Repr

/-- One step of the grouping loop `index[f['md5Checksum']].append(f)` over a
`defaultdict(list)` modelled as an association list in key–first-seen order,
each value list in insertion order. -/
def addToGroups (gs : List (String × List FileRecord)) (f : FileRecord) :
    List (String × List FileRecord) :=
  match gs with
  | [] => [(f.md5Checksum, [f])]
  | (k, v) :: rest =>
    if k = f.md5Checksum then (k, v ++ [f]) :: rest
    else (k, v) :: addToGroups rest f

/-- The `index` mapping of `find_dupes`, after the full `for f in files` loop. -/
def buildIndex (files : List FileRecord) : List (String × List FileRecord) :=
  files.foldl addToGroups []

/-- `find_dupes(files)`: keep the groups with more than one member
(`if len(v) > 1: dupes.append(v)`). -/
def find_dupes (files : List FileRecord) : List (List FileRecord) :=
  ((buildIndex files).filter (fun kv => kv.2.length > 1)).map (fun kv => kv.2)

/-- `ONE_GIG` from `dedup.py`: the divisor used to render the wasted-byte
total in gigabytes. -/
def ONE_GIG : Nat := 1073741824

/-- The batch cap literal in `main`: `if len(batch._order) == 1000`
(comment: batch maxes out at 1k). -/
def dedupBatchCeiling : Nat := 1000

/-- The ids trashed by `main`'s remediation loop, in iteration order:
`for dupeset in dupes: for dupe in dupeset[1:]: ... dupe['id']`. -/
def removableIds (dupes : List (List FileRecord)) : List String :=
  dupes.flatMap (fun s => (s.drop 1).map (fun f => f.id))

/-- One iteration of the remediation loop, on the state
(batches already executed, current batch): add the id to the batch; if the
batch has reached `dedupBatchCeiling`, execute it and start a fresh one. -/
def remStep (st : List (List String) × List String) (i : String) :
    List (List String) × List String :=
  if (st.2 ++ [i]).length = dedupBatchCeiling then (st.1 ++ [st.2 ++ [i]], [])
  else (st.1, st.2 ++ [i])

/-- The sequence of batches `main` executes, in order: the loop over all
removable ids followed by the unconditional final `batch.execute()` (the
code executes the remaining batch even when it is empty). -/
def remediate (ids : List String) : List (List String) :=
  let st := ids.foldl remStep ([], [])
  st.1 ++ [st.2]

/-- Total of `int(dupe['quotaBytesUsed'])` accumulated by `main` over
`dupeset[1:]` of every dupeset. -/
def reclaimableTotal (dupes : List (List FileRecord)) : Nat :=
  dupes.foldl (fun t s => (s.drop 1).foldl (fun acc d => acc + d.quotaBytesUsed) t) 0

/-! ## User-visible behaviour of `main` as an event trace -/

/-- Python `str.strip()` whitespace for a byte string: space, tab, newline,
carriage return, vertical tab, form feed. -/
def pyIsSpace (c : Char) : Bool :=
  c = ' ' || c = '\t' || c = '\n' || c = '\r' || c = '\x0b' || c = '\x0c'

/-- Python `s.strip()`: remove leading and trailing whitespace. -/
def pyStrip (s : String) : String :=
  String.mk (((s.data.dropWhile pyIsSpace).reverse.dropWhile pyIsSpace).reverse)

/-- Modelled from the spec: the outcome of executing one batch of trash
sub-operations through the batch HTTP layer (whose code is outside this
repository). Per the spec, sub-operations are independent: every one of
them executes and yields its own outcome, a failure of one not affecting
its siblings. `fails id` says whether the trash of `id` fails; the result
pairs each id with whether it succeeded. -/
def executeBatch (fails : String → Bool) (ops : List String) : List (String × Bool) :=
  ops.map (fun i => (i, !fails i))

/-- Observable events of one run of `main` in `dedup.py`, in order: the
`print` statements (each with the data interpolated into it), the
confirmation prompt, each `batch.add` of a trash request, and each
`batch.execute()` (with the per-operation outcomes it produced). -/
inductive Event where
  | printDupCount (n : Nat)
  | printDone
  | printCheck
  | printSetHeader
  | printDupe (link title : String)
  | printWasted (totalBytes : Nat)
  | prompt
  | printTrashing
  | trashReq (id : String)
  | batchExec (outcomes : List (String × Bool))
  | printTrashDone
  | printNotTouching
deriving DecidableEq, Repr

/-- The report `main` prints for one dupeset: `--` then one line
(`alternateLink`, `title`) per member. -/
def reportSetEvents (s : List FileRecord) : List Event :=
  Event.printSetHeader :: s.map (fun d => Event.printDupe d.alternateLink d.title)

/-- One iteration of the trashing loop as trace events, on the state
(events so far, current batch): a `trashReq` for the added id, then a
`batchExec` when the batch reaches `dedupBatchCeiling`. -/
def trashStep (fails : String → Bool) (st : List Event × List String) (i : String) :
    List Event × List String :=
  if (st.2 ++ [i]).length = dedupBatchCeiling then
    (st.1 ++ [Event.trashReq i, Event.batchExec (executeBatch fails (st.2 ++ [i]))], [])
  else (st.1 ++ [Event.trashReq i], st.2 ++ [i])

/-- The events of the whole trashing loop, ending with the unconditional
final `batch.execute()`. -/
def trashEvents (fails : String → Bool) (ids : List String) : List Event :=
  let st := ids.foldl (trashStep fails) ([], [])
  st.1 ++ [Event.batchExec (executeBatch fails st.2)]

/-- The full event trace of `main` after the fetch: dupe count; early `We
are done.` return when there are none; otherwise the per-set report, the
wasted-bytes line, the confirmation prompt, and either the trashing pass or
`Not touching anything.` -/
def mainTrace (files : List FileRecord) (conf : String) (fails : String → Bool) :
    List Event :=
  let dupes := find_dupes files
  Event.printDupCount dupes.length ::
    (if dupes.length = 0 then [Event.printDone]
     else Event.printCheck ::
       (dupes.flatMap reportSetEvents ++
        [Event.printSetHeader, Event.printWasted (reclaimableTotal dupes), Event.prompt] ++
        (if pyStrip conf = "y" then
          Event.printTrashing ::
            (trashEvents fails (removableIds dupes) ++ [Event.printTrashDone])
         else [Event.printNotTouching])))

/-- Whether an event is console output (as opposed to an enqueued request
or a batch execution). -/
def isPrintEvent (e : Event) : Bool :=
  match e with
  | Event.trashReq _ => false
  | Event.batchExec _ => false
  | _ => true

/-- The print events of a trace: what the user actually sees on the
console (everything except the enqueued requests and batch executions). -/
def printEvents (tr : List Event) : List Event :=
  tr.filter isPrintEvent

/-- The outcome lists of the batch executions occurring in a trace. -/
def batchesOf (evs : List Event) : List (List (String × Bool)) :=
  evs.filterMap (fun e =>
    match e with
    | Event.batchExec o => some o
    | _ => none)

/-! ## Data model (`datefix.py`) -/

/-- One image entry as fetched by `fetch_all_metadata` in `datefix.py`:
`id`, the EXIF capture date `imageMediaMetadata/date` when present, and the
current `modifiedDate`. (The also-fetched `createdDate`,
`modifiedByMeDate`, `alternateLink` are never read by the script.) -/
structure ImageRecord where
  id : String
  imageMediaMetadataDate : Option String
  modifiedDate : String
deriving DecidableEq, Repr

/-- Recursion core of `chunks`, structural on a fuel bound: with fuel at
least the list length the fuel never runs out, since each step drops at
least one element. -/
def chunksFuel {α : Type} : Nat → List α → Nat → List (List α)
  | _, [], _ => []
  | _, _ :: _, 0 => []
  | 0, _ :: _, _ + 1 => []
  | f + 1, x :: xs, n + 1 =>
    (x :: xs).take (n + 1) :: chunksFuel f ((x :: xs).drop (n + 1)) (n + 1)

/-- `chunks(l, n)`: successive `n`-sized chunks of `l`. (`n = 0`, on which
the Python `xrange` step would be invalid, is mapped to the empty result;
the script only ever uses `n = 100`.) -/
def chunks {α : Type} (l : List α) (n : Nat) : List (List α) :=
  chunksFuel l.length l n

/-- The chunk-size literal in `batch_patch_dates`:
`chunks(files, 100)` (comment: should be 1000, but 500 is more reliable). -/
def datefixChunkSize : Nat := 100

/-- A parsed EXIF timestamp (the fields of a Python `datetime`, to second
precision, as produced by `strptime`). -/
structure DateTime where
  year : Nat
  month : Nat
  day : Nat
  hour : Nat
  minute : Nat
  second : Nat
deriving DecidableEq, Repr

/-- Day count of a month, with the Gregorian leap rule, as validated by the
Python `datetime` constructor. -/
def daysInMonth (y m : Nat) : Nat :=
  if m = 2 then (if (y % 4 = 0 && y % 100 != 0) || y % 400 = 0 then 29 else 28)
  else if m = 4 || m = 6 || m = 9 || m = 11 then 30 else 31

/-- Split a character list at every occurrence of `sep`, like Python
`str.split(sep)`: no empty input yields `[[]]`, and separators at the ends
yield empty fields. -/
def splitOnChar (sep : Char) : List Char → List (List Char)
  | [] => [[]]
  | c :: cs =>
    match splitOnChar sep cs with
    | [] => if c = sep then [[], []] else [[c]]
    | g :: gs => if c = sep then [] :: g :: gs else (c :: g) :: gs

/-- One numeric field of a timestamp, as the `strptime` field regexes
match it: between `lo` and `hi` digits, decimal value. -/
def parseField (l : List Char) (lo hi : Nat) : Option Nat :=
  if lo ≤ l.length ∧ l.length ≤ hi ∧ l ≠ [] ∧ l.all Char.isDigit then
    some (l.foldl (fun a c => a * 10 + (c.toNat - 48)) 0)
  else none

/-- `parseDate(timestamp)`: `datetime.strptime(timestamp,
'%Y:%m:%d %H:%M:%S')`, returning `none` where Python raises `ValueError`
(wrong shape, non-numeric fields, or out-of-range components: the year is
four digits and at least 1, month/day/hour/minute/second are one or two
digits, validated against the Gregorian calendar and the clock). -/
def parseDate (timestamp : String) : Option DateTime :=
  match splitOnChar ' ' timestamp.data with
  | [d, t] =>
    match splitOnChar ':' d, splitOnChar ':' t with
    | [ys, mos, das], [hs, mis, ss] => do
      let y ← parseField ys 4 4
      let mo ← parseField mos 1 2
      let da ← parseField das 1 2
      let h ← parseField hs 1 2
      let mi ← parseField mis 1 2
      let s ← parseField ss 1 2
      if 1 ≤ y ∧ mo ≤ 12 ∧ 1 ≤ mo ∧ 1 ≤ da ∧ da ≤ daysInMonth y mo ∧
          h ≤ 23 ∧ mi ≤ 59 ∧ s ≤ 59 then
        some ⟨y, mo, da, h, mi, s⟩
      else none
    | _, _ => none
  | _ => none

/-- Left-pad the decimal rendering of `n` with zeros to width `w`. -/
def padZeros (w n : Nat) : String :=
  String.mk (List.replicate (w - (toString n).length) '0') ++ toString n

/-- `formatDate(date)`: `date.isoformat('T') + '.0Z'`. -/
def formatDate (d : DateTime) : String :=
  padZeros 4 d.year ++ "-" ++ padZeros 2 d.month ++ "-" ++ padZeros 2 d.day ++ "T" ++
    padZeros 2 d.hour ++ ":" ++ padZeros 2 d.minute ++ ":" ++ padZeros 2 d.second ++ ".0Z"

/-- A `files().patch(fileId=..., setModifiedDate=True, body=pmeta)` request
as enqueued by `batch_patch_dates`. -/
structure PatchReq where
  fileId : String
  newModifiedDate : String
deriving DecidableEq, Repr

/-- The per-file body of the chunk loop in `batch_patch_dates`: skip when
the EXIF date is absent, when it fails to parse, or when the formatted date
already equals `modifiedDate`; otherwise enqueue the patch request. -/
def mkPatch (f : ImageRecord) : Option PatchReq :=
  match f.imageMediaMetadataDate with
  | none => none
  | some ts =>
    match parseDate ts with
    | none => none
    | some real_date =>
      if formatDate real_date = f.modifiedDate then none
      else some ⟨f.id, formatDate real_date⟩

/-- `batch_patch_dates(client, files)`: per 100-chunk, the batch of patch
requests enqueued for that chunk (each chunk's batch is then executed). -/
def batch_patch_dates (files : List ImageRecord) : List (List PatchReq) :=
  (chunks files datefixChunkSize).map (fun chunk => chunk.filterMap mkPatch)

/-- The remote effect on one image of a successful pass: an enqueued patch
with `setModifiedDate=True` makes Drive set the image's `modifiedDate` to
the patched value; an image with no enqueued patch is untouched. -/
def applyPatch (f : ImageRecord) : ImageRecord :=
  match mkPatch f with
  | some p => { f with modifiedDate := p.newModifiedDate }
  | none => f

/-- The fetched state after a fully successful pass over `files`. -/
def applyPass (files : List ImageRecord) : List ImageRecord :=
  files.map applyPatch

/-- The value list the `index` mapping associates to checksum `k` (empty
when `k` has no entry), read off the association-list model. -/
def lookupGroup : List (String × List FileRecord) → String → List FileRecord
  | [], _ => []
  | kv :: rest, k => if kv.1 = k then kv.2 else lookupGroup rest k

/-! ## Extractors and concrete sample inputs used by witnesses -/

/-- The id of a trash request event, when the event is one. -/
def trashIdOf (e : Event) : Option String :=
  match e with
  | Event.trashReq i => some i
  | _ => none

/-- Scenario A of the spec, as records: two files share checksum `x`, one
has the unique checksum `y`. -/
def demoDup1 : FileRecord := ⟨("1"), ("x"), ("a"), ("linka"), 10⟩

/-- Second record of the shared-checksum pair. -/
def demoDup2 : FileRecord := ⟨("2"), ("x"), ("b"), ("linkb"), 20⟩

/-- The record with a unique checksum. -/
def demoUniq : FileRecord := ⟨("3"), ("y"), ("c"), ("linkc"), 5⟩

/-- Scenario A input. -/
def demoFiles : List FileRecord := [demoDup1, demoDup2, demoUniq]

/-- A single duplicate set of 1001 records sharing one checksum, so that
exactly 1000 of them are removable. -/
def cex1000Dupes : List (List FileRecord) :=
  [(List.range 1001).map (fun n => ⟨toString n, ("x"), ("t"), ("l"), 1⟩)]

/-- An outcome oracle under which the trash of id `2` fails and every other
operation succeeds. -/
def demoFails (i : String) : Bool := i == ("2")

/-- An image whose EXIF date parses and differs from its `modifiedDate`. -/
def demoImgPatch : ImageRecord := ⟨("i1"), some ("2018:07:01 12:30:05"), ("old")⟩

/-- An image with no EXIF date. -/
def demoImgNoExif : ImageRecord := ⟨("i2"), none, ("whatever")⟩

/-- An image whose EXIF date does not parse. -/
def demoImgBadExif : ImageRecord := ⟨("i4"), some ("not a date"), ("whatever")⟩

/-- An image whose `modifiedDate` already equals its formatted EXIF date. -/
def demoImgEqual : ImageRecord :=
  ⟨("i3"), some ("2018:07:01 12:30:05"), ("2018-07-01T12:30:05.0Z")⟩

/-- Sample image listing exercising all four per-image cases. -/
def demoImages : List ImageRecord :=
  [demoImgPatch, demoImgNoExif, demoImgBadExif, demoImgEqual]

/-! ## Batch chunking: characterization of the remediation fold -/

theorem foldl_remStep_spec (ids : List String) :
    ∀ (done : List (List String)) (cur : List String),
      cur.length < dedupBatchCeiling →
      ((ids.foldl remStep (done, cur)).1.length
          = done.length + (cur.length + ids.length) / dedupBatchCeiling)
        ∧ ((ids.foldl remStep (done, cur)).2.length
          = (cur.length + ids.length) % dedupBatchCeiling)
        ∧ ((ids.foldl remStep (done, cur)).1.flatten ++ (ids.foldl remStep (done, cur)).2
          = done.flatten ++ cur ++ ids)
        ∧ (∀ b ∈ (ids.foldl remStep (done, cur)).1,
            b ∈ done ∨ b.length = dedupBatchCeiling) := by
  induction ids with
  | nil =>
    intro done cur h
    refine ⟨?_, ?_, by simp, fun b hb => Or.inl hb⟩
    · simp [Nat.div_eq_of_lt (by simpa using h)]
    · simp [Nat.mod_eq_of_lt (by simpa using h)]
  | cons i rest ih =>
    intro done cur h
    have hq : dedupBatchCeiling = 1000 := rfl
    by_cases hc : (cur ++ [i]).length = dedupBatchCeiling
    · have heq : List.foldl remStep (done, cur) (i :: rest)
          = List.foldl remStep (done ++ [cur ++ [i]], []) rest := by
        simp only [List.foldl_cons, remStep, if_pos hc]
      have hc' : cur.length + 1 = 1000 := by
        simpa [hq] using hc
      obtain ⟨h1, h2, h3, h4⟩ := ih (done ++ [cur ++ [i]]) [] (by simp [hq])
      rw [heq]
      refine ⟨?_, ?_, ?_, ?_⟩
      · rw [h1]
        simp [hq]
        omega
      · rw [h2]
        simp [hq]
        omega
      · rw [h3]
        simp [List.append_assoc]
      · intro b hb
        rcases h4 b hb with hb' | hb'
        · rcases List.mem_append.mp hb' with h'' | h''
          · exact Or.inl h''
          · refine Or.inr ?_
            simp only [List.mem_singleton] at h''
            subst h''
            simp only [List.length_append, List.length_singleton, hq]
            omega
        · exact Or.inr hb'
    · have heq : List.foldl remStep (done, cur) (i :: rest)
          = List.foldl remStep (done, cur ++ [i]) rest := by
        simp only [List.foldl_cons, remStep, if_neg hc]
      have hlt : (cur ++ [i]).length < dedupBatchCeiling := by
        simp only [List.length_append, List.length_singleton, hq] at *
        omega
      obtain ⟨h1, h2, h3, h4⟩ := ih done (cur ++ [i]) hlt
      rw [heq]
      refine ⟨?_, ?_, ?_, h4⟩
      · rw [h1]
        simp [hq]
        omega
      · rw [h2]
        simp [hq]
        omega
      · rw [h3]
        simp [List.append_assoc]

/-- The remediation loop executes `k / 1000 + 1` batches: full batches for
every complete thousand, plus the unconditional final execution. -/
theorem remediate_length (ids : List String) :
    (remediate ids).length = ids.length / 1000 + 1 := by
  obtain ⟨h1, -, -, -⟩ :=
    foldl_remStep_spec ids [] [] (by simp [dedupBatchCeiling])
  simp only [remediate, List.length_append, h1]
  simp [dedupBatchCeiling]

/-- Concatenating the executed batches gives back exactly the removable ids
in order. -/
theorem remediate_flatten (ids : List String) :
    (remediate ids).flatten = ids := by
  obtain ⟨-, -, h3, -⟩ :=
    foldl_remStep_spec ids [] [] (by simp [dedupBatchCeiling])
  simpa [remediate] using h3

/-- No executed batch exceeds the 1000-operation cap. -/
theorem remediate_batch_le (ids : List String) :
    ∀ b ∈ remediate ids, b.length ≤ 1000 := by
  obtain ⟨-, h2, -, h4⟩ :=
    foldl_remStep_spec ids [] [] (by simp [dedupBatchCeiling])
  intro b hb
  simp only [remediate, List.mem_append, List.mem_singleton] at hb
  rcases hb with hb | hb
  · rcases h4 b hb with hb' | hb'
    · simp at hb'
    · simp only [dedupBatchCeiling] at hb'
      omega
  · subst hb
    rw [h2]
    simp only [List.length_nil, dedupBatchCeiling]
    omega

/-- The final, unconditionally executed batch holds `k % 1000` operations. -/
theorem remediate_getLast (ids : List String) :
    ∃ b, (remediate ids).getLast? = some b ∧ b.length = ids.length % 1000 := by
  obtain ⟨-, h2, -, -⟩ :=
    foldl_remStep_spec ids [] [] (by simp [dedupBatchCeiling])
  refine ⟨(ids.foldl remStep ([], [])).2, ?_, ?_⟩
  · simp [remediate, List.getLast?_concat]
  · rw [h2]
    simp [dedupBatchCeiling]

/-- C1 (amended): with `k ≥ 1` removable ids, the remediation loop performs
`k / 1000 + 1` batch executions, each of at most 1000 operations — that is
`ceil(k / 1000)` executions when `1000` does not divide `k`, with a
non-empty final batch; but when `1000` divides `k` the final
`batch.execute()` still runs on an empty batch, one execution more than
`ceil(k / 1000)`. -/
theorem dedup_batch_chunking (dupes : List (List FileRecord))
    (h : 1 ≤ (removableIds dupes).length) :
    ((remediate (removableIds dupes)).length = (removableIds dupes).length / 1000 + 1)
      ∧ (∀ b ∈ remediate (removableIds dupes), b.length ≤ 1000)
      ∧ (¬ 1000 ∣ (removableIds dupes).length →
          (remediate (removableIds dupes)).length
              = ((removableIds dupes).length + 999) / 1000
            ∧ ∀ b, (remediate (removableIds dupes)).getLast? = some b → b ≠ [])
      ∧ (1000 ∣ (removableIds dupes).length →
          (remediate (removableIds dupes)).getLast? = some []) := by
  refine ⟨remediate_length _, remediate_batch_le _, ?_, ?_⟩
  · intro hnd
    constructor
    · rw [remediate_length]
      omega
    · intro b hb
      obtain ⟨b', hb', hlen⟩ := remediate_getLast (removableIds dupes)
      rw [hb'] at hb
      cases hb
      intro hnil
      rw [hnil] at hlen
      simp only [List.length_nil] at hlen
      omega
  · intro hd
    obtain ⟨b', hb', hlen⟩ := remediate_getLast (removableIds dupes)
    have : b'.length = 0 := by omega
    rw [hb', List.length_eq_zero.mp this]

theorem dedup_batch_chunking_witness :
    1 ≤ (removableIds [[demoDup1, demoDup2]]).length
      ∧ (remediate (removableIds [[demoDup1, demoDup2]])).length = 1 :=
  ⟨by decide,
    ((dedup_batch_chunking [[demoDup1, demoDup2]] (by decide)).1).trans (by decide)⟩

/-- C1 counterexample: with exactly 1000 removable files the code performs
2 batch executions (the claim predicts `ceil(1000/1000) = 1`), and the
second executed batch is empty. -/
theorem dedup_batch_chunking_cex :
    (removableIds cex1000Dupes).length = 1000
      ∧ (remediate (removableIds cex1000Dupes)).length = 2
      ∧ (remediate (removableIds cex1000Dupes)).getLast? = some [] := by
  have hlen : (removableIds cex1000Dupes).length = 1000 := by
    simp [cex1000Dupes, removableIds]
  refine ⟨hlen, ?_, ?_⟩
  · rw [remediate_length, hlen]
  · obtain ⟨b, hb, hblen⟩ := remediate_getLast (removableIds cex1000Dupes)
    rw [hlen] at hblen
    simp only [Nat.reduceMod] at hblen
    rw [hb, List.length_eq_zero.mp hblen]

/-- Helper for C2: the removable ids form a sublist of all the ids occurring
in the duplicate sets. -/
theorem removableIds_sublist (dupes : List (List FileRecord)) :
    (removableIds dupes).Sublist ((dupes.flatten).map (fun g => g.id)) := by
  induction dupes with
  | nil => simp [removableIds]
  | cons s rest ih =>
    simp only [removableIds, List.flatMap_cons, List.flatten_cons, List.map_append]
    exact ((List.drop_sublist 1 s).map _).append (by simpa [removableIds] using ih)

/-- Helper for C2: each id's occurrences among all members split into those
among the representatives (index 0) and those among the removable members. -/
theorem count_ids_split (dupes : List (List FileRecord)) (x : String) :
    ((dupes.flatten).map (fun g => g.id)).count x
      = (dupes.flatMap (fun s => (s.take 1).map (fun g => g.id))).count x
        + (removableIds dupes).count x := by
  induction dupes with
  | nil => simp [removableIds]
  | cons s rest ih =>
    simp only [List.flatten_cons, List.map_append, List.count_append, removableIds,
      List.flatMap_cons] at *
    have hs : s.map (fun g => g.id)
        = (s.take 1).map (fun g => g.id) ++ (s.drop 1).map (fun g => g.id) := by
      rw [← List.map_append, List.take_append_drop]
    rw [hs, List.count_append]
    omega

/-- C2: with ids unique across all records, the flattened batches trash the
id of every member at index ≥ 1 of every duplicate set exactly once, no
index-0 representative's id is ever trashed, and the concatenation of all
batches' targets is exactly the removable-id sequence. -/
theorem dedup_remediation_targets (dupes : List (List FileRecord))
    (h : ((dupes.flatten).map (fun g => g.id)).Nodup) :
    ((remediate (removableIds dupes)).flatten = removableIds dupes)
      ∧ (∀ s ∈ dupes, ∀ f ∈ s.drop 1,
          ((remediate (removableIds dupes)).flatten).count f.id = 1)
      ∧ (∀ s ∈ dupes, ∀ f ∈ s.take 1,
          f.id ∉ (remediate (removableIds dupes)).flatten) := by
  have hsub := removableIds_sublist dupes
  have hnd : (removableIds dupes).Nodup := h.sublist hsub
  rw [remediate_flatten]
  refine ⟨rfl, ?_, ?_⟩
  · intro s hs f hf
    have hmem : f.id ∈ removableIds dupes := by
      simp only [removableIds, List.mem_flatMap]
      exact ⟨s, hs, List.mem_map_of_mem _ hf⟩
    exact List.count_eq_one_of_mem hnd hmem
  · intro s hs f hf
    have hcnt := count_ids_split dupes f.id
    have hmem_all : f.id ∈ (dupes.flatten).map (fun g => g.id) :=
      List.mem_map_of_mem _ (List.mem_flatten.mpr ⟨s, hs, List.mem_of_mem_take hf⟩)
    have h1 : ((dupes.flatten).map (fun g => g.id)).count f.id = 1 :=
      List.count_eq_one_of_mem h hmem_all
    have hrep : f.id ∈ dupes.flatMap (fun t => (t.take 1).map (fun g => g.id)) := by
      simp only [List.mem_flatMap]
      exact ⟨s, hs, List.mem_map_of_mem _ hf⟩
    have h2 : 0 < (dupes.flatMap (fun t => (t.take 1).map (fun g => g.id))).count f.id :=
      List.count_pos_iff.mpr hrep
    have h3 : (removableIds dupes).count f.id = 0 := by omega
    exact List.count_eq_zero.mp h3

theorem dedup_remediation_targets_witness :
    (([[demoDup1, demoDup2]].flatten).map (fun g => g.id)).Nodup
      ∧ ((remediate (removableIds [[demoDup1, demoDup2]])).flatten).count demoDup2.id = 1
      ∧ demoDup1.id ∉ (remediate (removableIds [[demoDup1, demoDup2]])).flatten :=
  ⟨by decide,
    (dedup_remediation_targets [[demoDup1, demoDup2]] (by decide)).2.1
      [demoDup1, demoDup2] (by simp) demoDup2 (by simp),
    (dedup_remediation_targets [[demoDup1, demoDup2]] (by decide)).2.2
      [demoDup1, demoDup2] (by simp) demoDup1 (by simp)⟩

/-! ## Reclaim calculator -/

/-- Helper: the inner accumulation loop adds the mapped sizes. -/
theorem foldl_add_sizes (l : List FileRecord) :
    ∀ t : Nat, l.foldl (fun acc d => acc + d.quotaBytesUsed) t
      = t + (l.map (fun g => g.quotaBytesUsed)).sum := by
  induction l with
  | nil => intro t; simp
  | cons d rest ih =>
    intro t
    rw [List.foldl_cons, ih]
    simp [List.sum_cons]
    omega

/-- Helper: the outer accumulation loop of `main` adds the per-set sums. -/
theorem reclaimableTotal_foldl (dupes : List (List FileRecord)) :
    ∀ t : Nat,
      dupes.foldl (fun t s => (s.drop 1).foldl (fun acc d => acc + d.quotaBytesUsed) t) t
        = t + (dupes.map (fun s => ((s.drop 1).map (fun g => g.quotaBytesUsed)).sum)).sum := by
  induction dupes with
  | nil => intro t; simp
  | cons s rest ih =>
    intro t
    rw [List.foldl_cons, foldl_add_sizes, ih]
    simp [List.sum_cons]
    omega

/-- C6: the total accumulated by `main` equals the sum of `quotaBytesUsed`
over every member at index ≥ 1 of every duplicate set — the index-0
representative of each set is never counted. -/
theorem reclaim_calculator_sum (dupes : List (List FileRecord)) :
    reclaimableTotal dupes
      = (dupes.map (fun s => ((s.drop 1).map (fun g => g.quotaBytesUsed)).sum)).sum := by
  rw [reclaimableTotal, reclaimableTotal_foldl]
  simp

/-! ## Duplicate indexer: characterization of the grouping loop -/

/-- Appending a record updates only its checksum's group, at the end. -/
theorem lookupGroup_addToGroups (gs : List (String × List FileRecord))
    (f : FileRecord) (k : String) :
    lookupGroup (addToGroups gs f) k
      = if f.md5Checksum = k then lookupGroup gs k ++ [f] else lookupGroup gs k := by
  induction gs with
  | nil =>
    by_cases hk : f.md5Checksum = k <;> simp [addToGroups, lookupGroup, hk]
  | cons kv rest ih =>
    obtain ⟨k0, v0⟩ := kv
    by_cases h0 : k0 = f.md5Checksum
    · subst h0
      by_cases hk : f.md5Checksum = k <;> simp [addToGroups, lookupGroup, hk]
    · by_cases hk : k0 = k
      · subst hk
        have : ¬ f.md5Checksum = k0 := fun he => h0 he.symm
        simp [addToGroups, lookupGroup, h0, this]
      · simp [addToGroups, lookupGroup, h0, hk, ih]

/-- Appending a record adds its checksum as a new last key when absent and
leaves the key list unchanged when present. -/
theorem keys_addToGroups (gs : List (String × List FileRecord)) (f : FileRecord) :
    (addToGroups gs f).map Prod.fst
      = if f.md5Checksum ∈ gs.map Prod.fst then gs.map Prod.fst
        else gs.map Prod.fst ++ [f.md5Checksum] := by
  induction gs with
  | nil => simp [addToGroups]
  | cons kv rest ih =>
    obtain ⟨k0, v0⟩ := kv
    by_cases h0 : k0 = f.md5Checksum
    · subst h0
      simp [addToGroups]
    · have h0' : ¬ f.md5Checksum = k0 := fun he => h0 he.symm
      by_cases hm : f.md5Checksum ∈ rest.map Prod.fst
      · simp [addToGroups, h0, hm, ih, h0']
      · simp [addToGroups, h0, hm, ih, h0']

/-- The invariant of `buildIndex`: each key's group is exactly the filter of
the input by that checksum (in input order), the keys are distinct, and the
keys are exactly the checksums occurring in the input. -/
theorem buildIndex_spec (files : List FileRecord) :
    (∀ k, lookupGroup (buildIndex files) k
        = files.filter (fun g => g.md5Checksum == k))
      ∧ ((buildIndex files).map Prod.fst).Nodup
      ∧ (∀ k, k ∈ (buildIndex files).map Prod.fst
          ↔ k ∈ files.map (fun g => g.md5Checksum)) := by
  induction files using List.reverseRecOn with
  | nil => exact ⟨fun k => rfl, by simp [buildIndex], by simp [buildIndex]⟩
  | append_singleton fs f ih =>
    obtain ⟨h1, h2, h3⟩ := ih
    have hbi : buildIndex (fs ++ [f]) = addToGroups (buildIndex fs) f := by
      simp [buildIndex, List.foldl_append]
    refine ⟨?_, ?_, ?_⟩
    · intro k
      rw [hbi, lookupGroup_addToGroups, List.filter_append]
      by_cases hk : f.md5Checksum = k
      · simp [hk, h1, List.filter_singleton]
      · simp [hk, h1, List.filter_singleton]
    · rw [hbi, keys_addToGroups]
      by_cases hm : f.md5Checksum ∈ (buildIndex fs).map Prod.fst
      · simp [hm, h2]
      · rw [if_neg hm, List.nodup_append]
        exact ⟨h2, List.nodup_singleton _, by simpa using hm⟩
    · intro k
      rw [hbi, keys_addToGroups]
      by_cases hm : f.md5Checksum ∈ (buildIndex fs).map Prod.fst
      · rw [if_pos hm]
        have hf := (h3 f.md5Checksum).mp hm
        rw [h3]
        simp only [List.map_append, List.mem_append, List.map_cons, List.map_nil,
          List.mem_singleton]
        constructor
        · exact fun h => Or.inl h
        · rintro (h | h)
          · exact h
          · rw [h]
            exact hf
      · rw [if_neg hm]
        simp only [List.mem_append, List.mem_singleton, h3, List.map_append,
          List.map_cons, List.map_nil]
    
/-- With distinct keys, the group stored at an entry is what lookup finds. -/
theorem lookupGroup_of_mem (gs : List (String × List FileRecord))
    (hnd : (gs.map Prod.fst).Nodup) :
    ∀ kv ∈ gs, lookupGroup gs kv.1 = kv.2 := by
  induction gs with
  | nil => simp
  | cons kv0 rest ih =>
    intro kv hkv
    simp only [List.map_cons, List.nodup_cons] at hnd
    rcases List.mem_cons.mp hkv with h | h
    · subst h
      simp [lookupGroup]
    · have hk : ¬ kv0.1 = kv.1 := by
        intro he
        exact hnd.1 (he ▸ List.mem_map_of_mem Prod.fst h)
      simp only [lookupGroup, if_neg hk]
      exact ih hnd.2 kv h

/-- Every emitted duplicate set has more than one member, is exactly the
input records bearing one checksum (in input order), and all its members
bear that checksum. -/
theorem mem_find_dupes (files : List FileRecord) (s : List FileRecord)
    (hs : s ∈ find_dupes files) :
    1 < s.length
      ∧ ∃ k, s = files.filter (fun g => g.md5Checksum == k)
          ∧ ∀ f ∈ s, f.md5Checksum = k := by
  obtain ⟨h1, h2, h3⟩ := buildIndex_spec files
  simp only [find_dupes, List.mem_map, List.mem_filter] at hs
  obtain ⟨kv, ⟨hkv_mem, hkv_len⟩, hkv_eq⟩ := hs
  have hlen : 1 < kv.2.length := by simpa using hkv_len
  have hval : lookupGroup (buildIndex files) kv.1 = kv.2 :=
    lookupGroup_of_mem _ h2 kv hkv_mem
  refine ⟨hkv_eq ▸ hlen, kv.1, ?_, ?_⟩
  · rw [← hkv_eq, ← hval, h1]
  · intro f hf
    have hfm : f ∈ files.filter (fun g => g.md5Checksum == kv.1) := by
      rw [← h1, hval, hkv_eq]
      exact hf
    simpa using (List.mem_filter.mp hfm).2

/-- The number of emitted duplicate sets equals the number of distinct
checksums borne by at least two input records. -/
theorem find_dupes_length (files : List FileRecord) :
    (find_dupes files).length
      = (((files.map (fun g => g.md5Checksum)).dedup).filter
          (fun k => 2 ≤ (files.filter (fun g => g.md5Checksum == k)).length)).length := by
  obtain ⟨h1, h2, h3⟩ := buildIndex_spec files
  rw [find_dupes, List.length_map]
  have hfc : (buildIndex files).filter (fun kv => kv.2.length > 1)
      = (buildIndex files).filter
          (fun kv => 2 ≤ (files.filter (fun g => g.md5Checksum == kv.1)).length) := by
    apply List.filter_congr
    intro kv hkv
    have hval : lookupGroup (buildIndex files) kv.1 = kv.2 :=
      lookupGroup_of_mem _ h2 kv hkv
    rw [← hval, h1]
    rfl
  rw [hfc]
  have hmapfilter : (((buildIndex files).map Prod.fst).filter
        (fun k => 2 ≤ (files.filter (fun g => g.md5Checksum == k)).length)).length
      = ((buildIndex files).filter
          (fun kv => 2 ≤ (files.filter (fun g => g.md5Checksum == kv.1)).length)).length := by
    rw [List.filter_map, List.length_map]
    rfl
  rw [← hmapfilter]
  have hperm : ((buildIndex files).map Prod.fst).Perm
      ((files.map (fun g => g.md5Checksum)).dedup) := by
    rw [List.perm_ext_iff_of_nodup h2 (List.nodup_dedup _)]
    intro a
    rw [h3, List.mem_dedup]
  exact (hperm.filter _).length_eq

/-- C5: the indexer emits one duplicate set per distinct checksum borne by
at least two records; each emitted set is exactly the records bearing one
checksum, in encounter order; records with a unique checksum appear in no
emitted set. -/
theorem dedup_indexer_grouping (files : List FileRecord) :
    ((find_dupes files).length
        = (((files.map (fun g => g.md5Checksum)).dedup).filter
            (fun k => 2 ≤ (files.filter (fun g => g.md5Checksum == k)).length)).length)
      ∧ (∀ s ∈ find_dupes files,
          ∃ k, s = files.filter (fun g => g.md5Checksum == k)
            ∧ ∀ f ∈ s, f.md5Checksum = k)
      ∧ (∀ f ∈ files,
          (files.filter (fun g => g.md5Checksum == f.md5Checksum)).length = 1 →
          ∀ s ∈ find_dupes files, f ∉ s) := by
  refine ⟨find_dupes_length files, ?_, ?_⟩
  · intro s hs
    exact (mem_find_dupes files s hs).2
  · intro f hf huniq s hs hmem
    obtain ⟨hlen, k, hs_eq, hall⟩ := mem_find_dupes files s hs
    have hk : f.md5Checksum = k := hall f hmem
    rw [hs_eq, ← hk, huniq] at hlen
    omega

theorem dedup_indexer_grouping_witness :
    demoUniq ∈ demoFiles
      ∧ (demoFiles.filter (fun g => g.md5Checksum == demoUniq.md5Checksum)).length = 1
      ∧ ∀ s ∈ find_dupes demoFiles, demoUniq ∉ s :=
  ⟨by decide, by decide,
    (dedup_indexer_grouping demoFiles).2.2 demoUniq (by decide) (by decide)⟩

/-! ## The trashing loop's trace against the pure batch fold -/

theorem foldl_trashStep_spec (fails : String → Bool) (ids : List String) :
    ∀ (evs : List Event) (cur : List String) (done : List (List String)),
      batchesOf evs = done.map (executeBatch fails) →
      evs.filterMap trashIdOf = done.flatten ++ cur →
      ((ids.foldl (trashStep fails) (evs, cur)).2 = (ids.foldl remStep (done, cur)).2)
        ∧ (batchesOf ((ids.foldl (trashStep fails) (evs, cur)).1)
            = ((ids.foldl remStep (done, cur)).1).map (executeBatch fails))
        ∧ (((ids.foldl (trashStep fails) (evs, cur)).1).filterMap trashIdOf
            = ((ids.foldl remStep (done, cur)).1).flatten
              ++ (ids.foldl (trashStep fails) (evs, cur)).2)
        ∧ (∀ e ∈ (ids.foldl (trashStep fails) (evs, cur)).1,
            e ∈ evs ∨ (∃ i, e = Event.trashReq i) ∨ (∃ o, e = Event.batchExec o)) := by
  induction ids with
  | nil =>
    intro evs cur done hb ht
    refine ⟨rfl, by simpa using hb, by simpa using ht, fun e he => Or.inl he⟩
  | cons i rest ih =>
    intro evs cur done hb ht
    by_cases hc : (cur ++ [i]).length = dedupBatchCeiling
    · have heqT : List.foldl (trashStep fails) (evs, cur) (i :: rest)
          = List.foldl (trashStep fails)
              (evs ++ [Event.trashReq i,
                Event.batchExec (executeBatch fails (cur ++ [i]))], []) rest := by
        simp only [List.foldl_cons, trashStep, if_pos hc]
      have heqR : List.foldl remStep (done, cur) (i :: rest)
          = List.foldl remStep (done ++ [cur ++ [i]], []) rest := by
        simp only [List.foldl_cons, remStep, if_pos hc]
      rw [heqT, heqR]
      have hb' : batchesOf (evs ++ [Event.trashReq i,
            Event.batchExec (executeBatch fails (cur ++ [i]))])
          = (done ++ [cur ++ [i]]).map (executeBatch fails) := by
        simp only [batchesOf] at hb ⊢
        simp [List.filterMap_append, hb]
      have ht' : (evs ++ [Event.trashReq i,
            Event.batchExec (executeBatch fails (cur ++ [i]))]).filterMap trashIdOf
          = (done ++ [cur ++ [i]]).flatten ++ [] := by
        simp [List.filterMap_append, ht, trashIdOf]
      obtain ⟨g1, g2, g3, g4⟩ := ih _ [] _ hb' ht'
      refine ⟨g1, g2, g3, ?_⟩
      intro e he
      rcases g4 e he with h' | h'
      · rcases List.mem_append.mp h' with h'' | h''
        · exact Or.inl h''
        · simp only [List.mem_cons, List.mem_singleton] at h''
          rcases h'' with h'' | h'' | h''
          · exact Or.inr (Or.inl ⟨i, h''⟩)
          · exact Or.inr (Or.inr ⟨_, h''⟩)
          · cases h''
      · exact Or.inr h'
    · have heqT : List.foldl (trashStep fails) (evs, cur) (i :: rest)
          = List.foldl (trashStep fails) (evs ++ [Event.trashReq i], cur ++ [i]) rest := by
        simp only [List.foldl_cons, trashStep, if_neg hc]
      have heqR : List.foldl remStep (done, cur) (i :: rest)
          = List.foldl remStep (done, cur ++ [i]) rest := by
        simp only [List.foldl_cons, remStep, if_neg hc]
      rw [heqT, heqR]
      have hb' : batchesOf (evs ++ [Event.trashReq i]) = done.map (executeBatch fails) := by
        simp only [batchesOf] at hb ⊢
        simp [List.filterMap_append, hb]
      have ht' : (evs ++ [Event.trashReq i]).filterMap trashIdOf
          = done.flatten ++ (cur ++ [i]) := by
        simp [List.filterMap_append, ht, trashIdOf]
      obtain ⟨g1, g2, g3, g4⟩ := ih _ _ _ hb' ht'
      refine ⟨g1, g2, g3, ?_⟩
      intro e he
      rcases g4 e he with h' | h'
      · rcases List.mem_append.mp h' with h'' | h''
        · exact Or.inl h''
        · simp only [List.mem_singleton] at h''
          exact Or.inr (Or.inl ⟨i, h''⟩)
      · exact Or.inr h'

/-- The batch executions in the trashing loop's trace are exactly the
batches of the pure chunking, executed through the batch layer. -/
theorem batchesOf_trashEvents (fails : String → Bool) (ids : List String) :
    batchesOf (trashEvents fails ids) = (remediate ids).map (executeBatch fails) := by
  obtain ⟨g1, g2, g3, g4⟩ :=
    foldl_trashStep_spec fails ids [] [] [] (by simp [batchesOf]) (by simp)
  simp only [trashEvents, remediate, batchesOf, List.filterMap_append] at *
  rw [g2, g1]
  simp

/-- The trash requests issued by the trashing loop are exactly the
removable ids, in order. -/
theorem trashIds_trashEvents (fails : String → Bool) (ids : List String) :
    (trashEvents fails ids).filterMap trashIdOf = ids := by
  obtain ⟨g1, g2, g3, g4⟩ :=
    foldl_trashStep_spec fails ids [] [] [] (by simp [batchesOf]) (by simp)
  have hflat : (List.foldl remStep ([], []) ids).1.flatten
      ++ (List.foldl remStep ([], []) ids).2 = ids := by
    simpa [remediate] using remediate_flatten ids
  simp only [trashEvents, List.filterMap_append, g3, g1]
  simp [trashIdOf, hflat]

/-- Every event of the trashing loop is a trash request or a batch
execution. -/
theorem trashEvents_shape (fails : String → Bool) (ids : List String) :
    ∀ e ∈ trashEvents fails ids,
      (∃ i, e = Event.trashReq i) ∨ (∃ o, e = Event.batchExec o) := by
  obtain ⟨-, -, -, g4⟩ :=
    foldl_trashStep_spec fails ids [] [] [] (by simp [batchesOf]) (by simp)
  intro e he
  simp only [trashEvents, List.mem_append, List.mem_singleton] at he
  rcases he with he | he
  · rcases g4 e he with h | h
    · simp at h
    · exact h
  · exact Or.inr ⟨_, he⟩

/-- Every event of the per-set report is a separator or a member line. -/
theorem reportSetEvents_shape (dupes : List (List FileRecord)) :
    ∀ e ∈ dupes.flatMap reportSetEvents,
      e = Event.printSetHeader ∨ ∃ l t, e = Event.printDupe l t := by
  intro e he
  simp only [List.mem_flatMap] at he
  obtain ⟨s, hs, he⟩ := he
  simp only [reportSetEvents, List.mem_cons, List.mem_map] at he
  rcases he with h | ⟨d, hd, h⟩
  · exact Or.inl h
  · exact Or.inr ⟨_, _, h.symm⟩

/-- When duplicates exist, the trace decomposes as: full report, then the
prompt, then the confirmed branch. -/
theorem mainTrace_decomp (files : List FileRecord) (conf : String)
    (fails : String → Bool) (h0 : ¬ (find_dupes files).length = 0) :
    mainTrace files conf fails
      = (Event.printDupCount (find_dupes files).length :: Event.printCheck ::
          ((find_dupes files).flatMap reportSetEvents
            ++ [Event.printSetHeader,
                Event.printWasted (reclaimableTotal (find_dupes files))]))
        ++ Event.prompt ::
          (if pyStrip conf = ("y") then
            Event.printTrashing ::
              (trashEvents fails (removableIds (find_dupes files))
                ++ [Event.printTrashDone])
          else [Event.printNotTouching]) := by
  simp [mainTrace, h0]

/-- Every event of the report prefix is console output and none of it is
the confirmation prompt. -/
theorem mainTrace_pre_shape (files : List FileRecord) :
    ∀ e ∈ Event.printDupCount (find_dupes files).length :: Event.printCheck ::
        ((find_dupes files).flatMap reportSetEvents
          ++ [Event.printSetHeader,
              Event.printWasted (reclaimableTotal (find_dupes files))]),
      isPrintEvent e = true ∧ e ≠ Event.prompt := by
  intro e he
  simp only [List.mem_cons, List.mem_append, List.mem_singleton,
    List.not_mem_nil, or_false] at he
  rcases he with rfl | rfl | he | rfl | rfl
  · exact ⟨rfl, by simp⟩
  · exact ⟨rfl, by simp⟩
  · rcases reportSetEvents_shape _ e he with rfl | ⟨l, t, rfl⟩
    · exact ⟨rfl, by simp⟩
    · exact ⟨rfl, by simp⟩
  · exact ⟨rfl, by simp⟩
  · exact ⟨rfl, by simp⟩

/-- C4: the divisor rendering the total is `2^30`, and the trace splits at
the confirmation prompt: the fully computed reclaimable total is presented
strictly before the prompt, no trash request or batch execution precedes
the prompt, and the prompt occurs exactly once. -/
theorem dedup_report_confirm_order (files : List FileRecord) (conf : String)
    (fails : String → Bool) (h : find_dupes files ≠ []) :
    ONE_GIG = 2 ^ 30
      ∧ ∃ pre post,
          mainTrace files conf fails = pre ++ Event.prompt :: post
            ∧ Event.printWasted (reclaimableTotal (find_dupes files)) ∈ pre
            ∧ Event.prompt ∉ pre
            ∧ (∀ i, Event.trashReq i ∉ pre)
            ∧ (∀ o, Event.batchExec o ∉ pre)
            ∧ Event.prompt ∉ post := by
  have h0 : ¬ (find_dupes files).length = 0 := by
    simpa [List.length_eq_zero] using h
  refine ⟨rfl, _, _, mainTrace_decomp files conf fails h0, ?_, ?_, ?_, ?_, ?_⟩
  · simp
  · intro hmem
    exact (mainTrace_pre_shape files Event.prompt hmem).2 rfl
  · intro i hmem
    have := (mainTrace_pre_shape files _ hmem).1
    simp [isPrintEvent] at this
  · intro o hmem
    have := (mainTrace_pre_shape files _ hmem).1
    simp [isPrintEvent] at this
  · by_cases hc : pyStrip conf = ("y")
    · rw [if_pos hc]
      intro hmem
      simp only [List.mem_cons, List.mem_append, List.mem_singleton,
        List.not_mem_nil, or_false] at hmem
      rcases hmem with h' | h' | h'
      · exact Event.noConfusion h'
      · rcases trashEvents_shape fails _ Event.prompt h' with ⟨i, h''⟩ | ⟨o, h''⟩ <;>
          exact Event.noConfusion h''
      · exact Event.noConfusion h'
    · rw [if_neg hc]
      intro hmem
      simp at hmem

theorem dedup_report_confirm_order_witness :
    ONE_GIG = 2 ^ 30
      ∧ ∃ pre post,
          mainTrace demoFiles ("n") (fun _ => false) = pre ++ Event.prompt :: post
            ∧ Event.printWasted (reclaimableTotal (find_dupes demoFiles)) ∈ pre
            ∧ Event.prompt ∉ pre
            ∧ (∀ i, Event.trashReq i ∉ pre)
            ∧ (∀ o, Event.batchExec o ∉ pre)
            ∧ Event.prompt ∉ post :=
  dedup_report_confirm_order demoFiles ("n") (fun _ => false) (by decide)

/-- With at least one duplicate set, the removable-id list is non-empty. -/
theorem removableIds_ne_nil (files : List FileRecord)
    (h : find_dupes files ≠ []) :
    removableIds (find_dupes files) ≠ [] := by
  obtain ⟨s, hs⟩ := List.exists_mem_of_ne_nil _ h
  obtain ⟨hlen, -⟩ := mem_find_dupes files s hs
  have hd : s.drop 1 ≠ [] := by
    intro hnil
    have := congrArg List.length hnil
    simp [List.length_drop] at this
    omega
  obtain ⟨f, hf⟩ := List.exists_mem_of_ne_nil _ hd
  intro hnil
  have : f.id ∈ removableIds (find_dupes files) := by
    simp only [removableIds, List.mem_flatMap]
    exact ⟨s, hs, List.mem_map_of_mem _ hf⟩
  rw [hnil] at this
  exact List.not_mem_nil _ this

/-- A trash request for some id occurs in the trashing loop's trace exactly
when the id is removable. -/
theorem trashReq_mem_trashEvents (fails : String → Bool) (ids : List String)
    (i : String) (hi : i ∈ ids) :
    Event.trashReq i ∈ trashEvents fails ids := by
  have h := trashIds_trashEvents fails ids
  rw [← h] at hi
  obtain ⟨e, he, hei⟩ := List.mem_filterMap.mp hi
  cases e <;> simp [trashIdOf] at hei
  subst hei
  exact he

/-- C9: once the report is shown, trash requests are issued if and only if
the stripped reply is exactly `y`; any other reply issues no trash request
and no batch execution, and the run ends with `Not touching anything.` -/
theorem dedup_confirmation_gate (files : List FileRecord) (conf : String)
    (fails : String → Bool) (h : find_dupes files ≠ []) :
    ((∃ i, Event.trashReq i ∈ mainTrace files conf fails) ↔ pyStrip conf = ("y"))
      ∧ (¬ pyStrip conf = ("y") →
          (∀ i, Event.trashReq i ∉ mainTrace files conf fails)
            ∧ (∀ o, Event.batchExec o ∉ mainTrace files conf fails)
            ∧ (mainTrace files conf fails).getLast? = some Event.printNotTouching) := by
  have h0 : ¬ (find_dupes files).length = 0 := by
    simpa [List.length_eq_zero] using h
  have hdecomp := mainTrace_decomp files conf fails h0
  by_cases hc : pyStrip conf = ("y")
  · refine ⟨⟨fun _ => hc, fun _ => ?_⟩, fun hn => absurd hc hn⟩
    obtain ⟨i, hi⟩ := List.exists_mem_of_ne_nil _ (removableIds_ne_nil files h)
    refine ⟨i, ?_⟩
    have hmem := trashReq_mem_trashEvents fails (removableIds (find_dupes files)) i hi
    rw [hdecomp, if_pos hc]
    simp [hmem]
  · have hnone : ∀ e ∈ mainTrace files conf fails, isPrintEvent e = true := by
      intro e he
      rw [hdecomp, if_neg hc] at he
      rcases List.mem_append.mp he with he | he
      · exact (mainTrace_pre_shape files e he).1
      · simp only [List.mem_cons, List.mem_singleton, List.not_mem_nil, or_false] at he
        rcases he with rfl | rfl <;> rfl
    refine ⟨⟨?_, fun hy => absurd hy hc⟩, fun _ => ⟨?_, ?_, ?_⟩⟩
    · rintro ⟨i, hi⟩
      have := hnone _ hi
      simp [isPrintEvent] at this
    · intro i hi
      have := hnone _ hi
      simp [isPrintEvent] at this
    · intro o ho
      have := hnone _ ho
      simp [isPrintEvent] at this
    · rw [hdecomp, if_neg hc]
      rw [show Event.prompt :: [Event.printNotTouching]
            = [Event.prompt] ++ [Event.printNotTouching] from rfl]
      rw [← List.append_assoc, List.getLast?_concat]

theorem dedup_confirmation_gate_witness :
    ((∃ i, Event.trashReq i ∈ mainTrace demoFiles ("Y") (fun _ => false))
        ↔ pyStrip ("Y") = ("y"))
      ∧ (¬ pyStrip ("Y") = ("y") →
          (∀ i, Event.trashReq i ∉ mainTrace demoFiles ("Y") (fun _ => false))
            ∧ (∀ o, Event.batchExec o ∉ mainTrace demoFiles ("Y") (fun _ => false))
            ∧ (mainTrace demoFiles ("Y") (fun _ => false)).getLast?
                = some Event.printNotTouching) :=
  dedup_confirmation_gate demoFiles ("Y") (fun _ => false) (by decide)

/-- C7 (amended): with zero duplicate sets the run prints the zero count
and the terminal message and stops: no prompt, no trash request, no batch
execution — and also no reclaimable-byte report (though the reclaimable
value over zero sets is 0, it is never printed). -/
theorem dedup_empty_result (files : List FileRecord) (conf : String)
    (fails : String → Bool) (h : find_dupes files = []) :
    mainTrace files conf fails = [Event.printDupCount 0, Event.printDone]
      ∧ reclaimableTotal (find_dupes files) = 0 := by
  constructor
  · simp [mainTrace, h]
  · rw [h]
    rfl

theorem dedup_empty_result_witness :
    mainTrace [demoUniq] ("y") (fun _ => false)
        = [Event.printDupCount 0, Event.printDone]
      ∧ reclaimableTotal (find_dupes [demoUniq]) = 0 :=
  dedup_empty_result [demoUniq] ("y") (fun _ => false) (by decide)

/-- C7 counterexample: on a one-file input with zero duplicate sets, the
run prints no reclaimable-byte figure at all — no `printWasted` event (of
any value, 0 included) occurs in the trace. -/
theorem dedup_empty_result_cex :
    find_dupes [demoUniq] = []
      ∧ (∀ n, Event.printWasted n ∉ mainTrace [demoUniq] ("y") (fun _ => false))
      ∧ Event.prompt ∉ mainTrace [demoUniq] ("y") (fun _ => false) := by
  have htr : mainTrace [demoUniq] ("y") (fun _ => false)
      = [Event.printDupCount 0, Event.printDone] := by decide
  refine ⟨by decide, ?_, ?_⟩
  · intro n
    rw [htr]
    simp
  · rw [htr]
    simp

/-! ## Partial-failure behaviour of the run -/

theorem batchesOf_append (l1 l2 : List Event) :
    batchesOf (l1 ++ l2) = batchesOf l1 ++ batchesOf l2 := by
  simp [batchesOf, List.filterMap_append]

theorem batchesOf_eq_nil_of_print (evs : List Event)
    (h : ∀ e ∈ evs, isPrintEvent e = true) : batchesOf evs = [] := by
  rw [batchesOf, List.filterMap_eq_nil_iff]
  intro e he
  have := h e he
  cases e <;> simp_all [isPrintEvent]

theorem batchesOf_cons_print (e : Event) (l : List Event)
    (he : isPrintEvent e = true) : batchesOf (e :: l) = batchesOf l := by
  cases e <;> simp_all [batchesOf, isPrintEvent, List.filterMap_cons]

theorem printEvents_append (l1 l2 : List Event) :
    printEvents (l1 ++ l2) = printEvents l1 ++ printEvents l2 := by
  simp [printEvents, List.filter_append]

theorem printEvents_cons (e : Event) (l : List Event) :
    printEvents (e :: l)
      = if isPrintEvent e then e :: printEvents l else printEvents l := by
  simp [printEvents, List.filter_cons]

/-- The trashing loop produces no console output of its own. -/
theorem printEvents_trashEvents (fails : String → Bool) (ids : List String) :
    printEvents (trashEvents fails ids) = [] := by
  rw [printEvents, List.filter_eq_nil_iff]
  intro e he
  rcases trashEvents_shape fails ids e he with ⟨i, rfl⟩ | ⟨o, rfl⟩ <;>
    simp [isPrintEvent]

/-- The console output of a run never depends on the per-operation
outcomes: nothing about failed or succeeded operations is ever printed. -/
theorem printEvents_mainTrace_indep (files : List FileRecord) (conf : String)
    (fails fails2 : String → Bool) :
    printEvents (mainTrace files conf fails)
      = printEvents (mainTrace files conf fails2) := by
  by_cases h0 : (find_dupes files).length = 0
  · simp [mainTrace, h0]
  · rw [mainTrace_decomp files conf fails h0, mainTrace_decomp files conf fails2 h0]
    by_cases hc : pyStrip conf = ("y")
    · rw [if_pos hc, if_pos hc]
      simp [printEvents_append, printEvents_cons, printEvents_trashEvents, isPrintEvent]
    · rw [if_neg hc, if_neg hc]

/-- When remediation runs, its batch executions are exactly the chunked
batches, executed through the (spec-modelled) batch layer. -/
theorem batchesOf_mainTrace (files : List FileRecord) (conf : String)
    (fails : String → Bool) (h0 : ¬ (find_dupes files).length = 0)
    (hc : pyStrip conf = ("y")) :
    batchesOf (mainTrace files conf fails)
      = (remediate (removableIds (find_dupes files))).map (executeBatch fails) := by
  rw [mainTrace_decomp files conf fails h0, if_pos hc]
  rw [batchesOf_append,
    batchesOf_eq_nil_of_print _ (fun e he => (mainTrace_pre_shape files e he).1),
    batchesOf_cons_print Event.prompt _ rfl, batchesOf_cons_print Event.printTrashing _ rfl,
    batchesOf_append, batchesOf_trashEvents]
  simp [batchesOf]

/-- C3 (amended): a failing sub-operation does not stop its batch or the
following batches — every id of every chunked batch gets its own outcome
from the (spec-modelled) batch layer, and the batches executed do not
depend on the outcomes — but the run reports nothing about outcomes: the
console output is identical whatever the outcomes were, so no
succeeded/failed counts or per-failure identifiers are surfaced. -/
theorem dedup_partial_failure_isolation (files : List FileRecord) (conf : String)
    (fails fails2 : String → Bool) (h : find_dupes files ≠ [])
    (hc : pyStrip conf = ("y")) :
    (batchesOf (mainTrace files conf fails)
        = (remediate (removableIds (find_dupes files))).map (executeBatch fails))
      ∧ (∀ b ∈ remediate (removableIds (find_dupes files)),
          ∀ i ∈ b, (i, !fails i) ∈ executeBatch fails b)
      ∧ printEvents (mainTrace files conf fails)
          = printEvents (mainTrace files conf fails2) := by
  have h0 : ¬ (find_dupes files).length = 0 := by
    simpa [List.length_eq_zero] using h
  refine ⟨batchesOf_mainTrace files conf fails h0 hc, ?_,
    printEvents_mainTrace_indep files conf fails fails2⟩
  intro b hb i hi
  exact List.mem_map_of_mem _ hi

theorem dedup_partial_failure_isolation_witness :
    (batchesOf (mainTrace demoFiles ("y") demoFails)
        = (remediate (removableIds (find_dupes demoFiles))).map (executeBatch demoFails))
      ∧ (∀ b ∈ remediate (removableIds (find_dupes demoFiles)),
          ∀ i ∈ b, (i, !demoFails i) ∈ executeBatch demoFails b)
      ∧ printEvents (mainTrace demoFiles ("y") demoFails)
          = printEvents (mainTrace demoFiles ("y") (fun _ => false)) :=
  dedup_partial_failure_isolation demoFiles ("y") demoFails (fun _ => false)
    (by decide) (by decide)

/-- C3 counterexample: in a run where the trash of id `2` fails, the
console output is identical, event for event, to the output of the run in
which everything succeeds — so no aggregate outcome, no counts and no
per-failure identifiers are reported. -/
theorem dedup_no_outcome_report_cex :
    demoFails demoDup2.id = true
      ∧ (∃ b ∈ batchesOf (mainTrace demoFiles ("y") demoFails),
          (demoDup2.id, false) ∈ b)
      ∧ printEvents (mainTrace demoFiles ("y") demoFails)
          = printEvents (mainTrace demoFiles ("y") (fun _ => false)) := by
  refine ⟨by decide, by decide, by decide⟩

/-! ## Chunking bounds and the batch-size constants -/

/-- Every chunk is at most `n` long and draws its members from the input. -/
theorem chunksFuel_spec {α : Type} :
    ∀ (f : Nat) (l : List α) (n : Nat), ∀ c ∈ chunksFuel f l n,
      c.length ≤ n ∧ ∀ x ∈ c, x ∈ l := by
  intro f
  induction f with
  | zero =>
    intro l n c hc
    cases l with
    | nil => simp [chunksFuel] at hc
    | cons x xs => cases n <;> simp [chunksFuel] at hc
  | succ f ih =>
    intro l n c hc
    cases l with
    | nil => simp [chunksFuel] at hc
    | cons x xs =>
      cases n with
      | zero => simp [chunksFuel] at hc
      | succ n =>
        simp only [chunksFuel, List.mem_cons] at hc
        rcases hc with rfl | hc
        · exact ⟨List.length_take_le _ _, fun y hy => List.take_subset _ _ hy⟩
        · obtain ⟨h1, h2⟩ := ih _ _ c hc
          exact ⟨h1, fun y hy => List.drop_subset _ _ (h2 y hy)⟩

/-- C8 (amended): the batch caps of both scripts are hard-coded literals —
the dedup remediator seals batches at exactly 1000 (the recommended
maximum, not a lower value), the photo-date script chunks at 100 (which is
lower than 1000) — and every chunk respects its cap. -/
theorem batch_ceiling_constants :
    dedupBatchCeiling = 1000
      ∧ datefixChunkSize = 100
      ∧ datefixChunkSize < 1000
      ∧ (∀ (files : List ImageRecord), ∀ c ∈ chunks files datefixChunkSize,
          c.length ≤ datefixChunkSize) := by
  refine ⟨rfl, rfl, by decide, ?_⟩
  intro files c hc
  exact (chunksFuel_spec files.length files datefixChunkSize c hc).1

theorem batch_ceiling_constants_witness :
    demoImages ∈ chunks demoImages datefixChunkSize
      ∧ demoImages.length ≤ datefixChunkSize :=
  ⟨by decide, batch_ceiling_constants.2.2.2 demoImages demoImages (by decide)⟩

/-- C8 counterexample: the batch ceiling applied by the dedup remediation
loop is exactly 1000 — not a conservative value lower than the recommended
maximum of 1000. -/
theorem dedup_ceiling_cex :
    dedupBatchCeiling = 1000 ∧ ¬ dedupBatchCeiling < 1000 :=
  ⟨rfl, by decide⟩

/-! ## Idempotence of the photo-date pass -/

/-- After a successful patch (or a skip), re-examining the image enqueues
nothing: the stored `modifiedDate` now equals the formatted EXIF date, or
the image is skipped for the same reason as before. -/
theorem mkPatch_applyPatch (f : ImageRecord) : mkPatch (applyPatch f) = none := by
  cases hd : f.imageMediaMetadataDate with
  | none => simp [applyPatch, mkPatch, hd]
  | some ts =>
    cases hp : parseDate ts with
    | none => simp [applyPatch, mkPatch, hd, hp]
    | some d =>
      by_cases he : formatDate d = f.modifiedDate
      · simp [applyPatch, mkPatch, hd, hp, he]
      · simp [applyPatch, mkPatch, hd, hp, he]

/-- C10: no patch is enqueued for an image whose `modifiedDate` already
equals its formatted EXIF date, nor for one lacking a parseable EXIF date;
consequently re-running the script right after a fully successful pass
enqueues zero patch requests. -/
theorem datefix_idempotent (files : List ImageRecord) :
    (∀ f ∈ files, ∀ ts d, f.imageMediaMetadataDate = some ts →
        parseDate ts = some d → formatDate d = f.modifiedDate → mkPatch f = none)
      ∧ (∀ f ∈ files,
          (f.imageMediaMetadataDate = none
            ∨ ∃ ts, f.imageMediaMetadataDate = some ts ∧ parseDate ts = none) →
          mkPatch f = none)
      ∧ (batch_patch_dates (applyPass files)).flatten = [] := by
  refine ⟨?_, ?_, ?_⟩
  · intro f hf ts d hts hd heq
    simp [mkPatch, hts, hd, heq]
  · intro f hf hcase
    rcases hcase with hnone | ⟨ts, hts, hp⟩
    · simp [mkPatch, hnone]
    · simp [mkPatch, hts, hp]
  · rw [batch_patch_dates, List.flatten_eq_nil_iff]
    intro l hl
    obtain ⟨chunk, hchunk, rfl⟩ := List.mem_map.mp hl
    rw [List.filterMap_eq_nil_iff]
    intro g hg
    have hgl : g ∈ applyPass files :=
      (chunksFuel_spec (applyPass files).length _ _ chunk hchunk).2 g hg
    obtain ⟨f0, hf0, rfl⟩ := List.mem_map.mp hgl
    exact mkPatch_applyPatch f0

theorem datefix_idempotent_witness :
    mkPatch demoImgEqual = none
      ∧ mkPatch demoImgNoExif = none
      ∧ mkPatch demoImgBadExif = none
      ∧ (batch_patch_dates (applyPass demoImages)).flatten = [] :=
  ⟨(datefix_idempotent demoImages).1 demoImgEqual (by decide)
      ("2018:07:01 12:30:05") ⟨2018, 7, 1, 12, 30, 5⟩ (by decide) (by decide) (by decide),
    (datefix_idempotent demoImages).2.1 demoImgNoExif (by decide) (Or.inl (by decide)),
    (datefix_idempotent demoImages).2.1 demoImgBadExif (by decide)
      (Or.inr ⟨("not a date"), by decide, by decide⟩),
    (datefix_idempotent demoImages).2.2⟩
